import Mathlib

/-!
Verification of the spacy_regex extension (src/spacy_regex.py): a
char-offset-to-token-index map built per document, offset-range-to-token-span
resolution, and regex finditer/findall operations over documents and spans.

The Python code is shallowly embedded: the offset dictionary becomes a
function Int → Option Nat built by the same insertion sequence the code
performs, Python exceptions become an Except error value, and the external
regex engine (the re module) is a parameter producing either a pattern error
or a list of half-open character intervals.
-/

/-- The Python exceptions that the embedded code can raise:
dictionary KeyError, sequence IndexError, and re.error (a pattern error). -/
inductive PyErr where
  | keyError
  | indexError
  | patternError
  deriving DecidableEq, Repr

/-- A spaCy token: absolute character start offset (tok.idx) and its text. -/
structure Token where
  idx : Nat
  text : List Char
  deriving DecidableEq, Repr

/-- End of the token's character span: tok.idx + len(tok.text). -/
def Token.endIdx (t : Token) : Nat := t.idx + t.text.length

/-- A spaCy Doc: the ordered token sequence and the full reconstructed text. -/
structure SpacyDoc where
  tokens : List Token
  text : List Char
  deriving DecidableEq, Repr

/-- The end of the last token's character span; this is the upper bound of
the indexed range walked by _chr2tok (the document character length when the
text ends at the last token). -/
def lastEnd (doc : SpacyDoc) : Nat :=
  match doc.tokens.getLast? with
  | none => 0
  | some t => t.endIdx

/-- Invariants of a spaCy Doc with at least one token: tokens are nonempty
strings and occupy increasing, non-overlapping character ranges (gaps of
whitespace between consecutive tokens are allowed). -/
structure Wf (doc : SpacyDoc) : Prop where
  nonempty : doc.tokens ≠ []
  tok_nonempty : ∀ t ∈ doc.tokens, t.text ≠ []
  sorted : doc.tokens.Pairwise (fun a b => a.endIdx ≤ b.idx)

/-- Python dict insertion d[k] = v on an integer-keyed dictionary. -/
def dictInsert (d : Int → Option Nat) (k : Int) (v : Nat) : Int → Option Nat :=
  fun x => if x = k then some v else d x

/-- The dict comprehension of _chr2tok, d = \x7btok.idx: i for i, tok in
enumerate(spacy_doc)\x7d, as a left-to-right insertion sequence with running
index i. -/
def seedFrom (d : Int → Option Nat) (i : Nat) : List Token → (Int → Option Nat)
  | [] => d
  | t :: rest => seedFrom (dictInsert d (t.idx : Int) i) (i + 1) rest

/-- The seeded dictionary mapping each token start offset to its index. -/
def seedDict (toks : List Token) : Int → Option Nat :=
  seedFrom (fun _ => none) 0 toks

/-- The loop of _chr2tok over the offsets: for each offset, if it is already
a key, update the running index i to its value, else insert the running
index at that offset.  Returns the final dictionary and running index. -/
def chr2tokLoop : List Int → (Int → Option Nat) → Nat → ((Int → Option Nat) × Nat)
  | [], d, i => (d, i)
  | o :: rest, d, i =>
    match d o with
    | some j => chr2tokLoop rest d j
    | none => chr2tokLoop rest (dictInsert d o i) i

/-- range(n) of Python, as integer offsets. -/
def intRange (n : Nat) : List Int := (List.range n).map Int.ofNat

/-- _chr2tok(spacy_doc): builds the char-offset-to-token-index dictionary.
Accessing spacy_doc[-1] on a zero-token document raises IndexError; otherwise
the dictionary is seeded with the token starts and the loop walks offsets
range(last.idx + len(last.text) + 1). -/
def _chr2tok (doc : SpacyDoc) : Except PyErr (Int → Option Nat) :=
  match doc.tokens.getLast? with
  | none => Except.error PyErr.indexError
  | some last =>
      Except.ok
        (chr2tokLoop (intRange (last.idx + last.text.length + 1))
          (seedDict doc.tokens) 0).1

/-- get_ti_from_idx(doc, idx): the (lazily built, deterministic) map indexed
at idx; a missing key raises KeyError, a failing build propagates. -/
def get_ti_from_idx (doc : SpacyDoc) (idx : Int) : Except PyErr Nat :=
  match _chr2tok doc with
  | Except.error e => Except.error e
  | Except.ok m =>
    match m idx with
    | none => Except.error PyErr.keyError
    | some i => Except.ok i

/-- get_span_from_idxs(doc, idx_start, idx_end): resolve the start offset; on
a zero-width interval return the empty span there without consulting
idx_end - 1; otherwise resolve idx_end - 1 and make the token index
exclusive.  A SpanRef is the half-open token index pair. -/
def get_span_from_idxs (doc : SpacyDoc) (idx_start idx_end : Int) :
    Except PyErr (Nat × Nat) :=
  match get_ti_from_idx doc idx_start with
  | Except.error e => Except.error e
  | Except.ok start_i =>
    if idx_start = idx_end then Except.ok (start_i, start_i)
    else
      match get_ti_from_idx doc (idx_end - 1) with
      | Except.error e => Except.error e
      | Except.ok end_i => Except.ok (start_i, end_i + 1)

/-- The external regex engine (the re module): given pattern, subject text
and flags, either a pattern error or the finite list of non-overlapping
matches as half-open character intervals, in scan order. -/
def RegexEngine : Type :=
  String → List Char → Int → Except Unit (List (Nat × Nat))

/-- Draining the generator body: resolve each match interval in order,
stopping at the first exception (no partial results escape). -/
def resolveSeq (doc : SpacyDoc) : List (Nat × Nat) → Except PyErr (List (Nat × Nat))
  | [] => Except.ok []
  | m :: rest =>
    match get_span_from_idxs doc (m.1 : Int) (m.2 : Int) with
    | Except.error e => Except.error e
    | Except.ok sp =>
      match resolveSeq doc rest with
      | Except.error e => Except.error e
      | Except.ok sps => Except.ok (sp :: sps)

/-- doc_finditer(doc, pattern, flags): run the engine on doc.text and resolve
every match span.  An invalid pattern surfaces as a pattern error before any
span is produced. -/
def doc_finditer (E : RegexEngine) (doc : SpacyDoc) (pattern : String)
    (flags : Int) : Except PyErr (List (Nat × Nat)) :=
  match E pattern doc.text flags with
  | Except.error _ => Except.error PyErr.patternError
  | Except.ok ms => resolveSeq doc ms

/-- doc_findall(doc, pattern, flags) = list(doc_finditer(doc, pattern, flags)). -/
def doc_findall (E : RegexEngine) (doc : SpacyDoc) (pattern : String)
    (flags : Int) : Except PyErr (List (Nat × Nat)) :=
  doc_finditer E doc pattern flags

/-- The text covered by a span [sp.1, sp.2): the document text from the first
covered token's start through the last covered token's end (spaCy span.text). -/
def spanText (doc : SpacyDoc) (sp : Nat × Nat) : List Char :=
  match doc.tokens.get? sp.1, doc.tokens.get? (sp.2 - 1) with
  | some t0, some t1 => (doc.text.drop t0.idx).take (t1.endIdx - t0.idx)
  | _, _ => []

/-- span_finditer(span, pattern, flags): reading span[0] raises IndexError on
an empty span; otherwise run the engine on the span text, shift each local
match by the first token's start offset, and resolve against the whole
document. -/
def span_finditer (E : RegexEngine) (doc : SpacyDoc) (sp : Nat × Nat)
    (pattern : String) (flags : Int) : Except PyErr (List (Nat × Nat)) :=
  if sp.1 < sp.2 then
    match doc.tokens.get? sp.1 with
    | none => Except.error PyErr.indexError
    | some t0 =>
      match E pattern (spanText doc sp) flags with
      | Except.error _ => Except.error PyErr.patternError
      | Except.ok ms =>
          resolveSeq doc (ms.map (fun m => (m.1 + t0.idx, m.2 + t0.idx)))
  else Except.error PyErr.indexError

/-- span_findall(span, pattern, flags) = list(span_finditer(...)). -/
def span_findall (E : RegexEngine) (doc : SpacyDoc) (sp : Nat × Nat)
    (pattern : String) (flags : Int) : Except PyErr (List (Nat × Nat)) :=
  span_finditer E doc sp pattern flags

/-- The token owning offset o: the index of the last token starting at or
before o (0 when no token starts at or before o).  This is the value the
built dictionary holds at every indexed offset. -/
def owner (toks : List Token) (o : Int) : Nat :=
  (toks.countP (fun t => (t.idx : Int) ≤ o)) - 1

/-- The resolved token span of a character interval, in closed form. -/
def spanOf (toks : List Token) (s e : Int) : Nat × Nat :=
  if s = e then (owner toks s, owner toks s)
  else (owner toks s, owner toks (e - 1) + 1)

/-- Some offset is the start of a token of the list. -/
def isStart (toks : List Token) (o : Int) : Prop :=
  ∃ t ∈ toks, (t.idx : Int) = o

/-- doc.text[a:b] of Python. -/
def textSlice (t : List Char) (a b : Nat) : List Char :=
  (t.drop a).take (b - a)

/-- The concrete example document of the specification: text "ab  cd",
tokens "ab" at offsets [0,2) and "cd" at offsets [4,6). -/
def exDoc : SpacyDoc :=
  { tokens := [⟨0, ['a', 'b']⟩, ⟨4, ['c', 'd']⟩],
    text := ['a', 'b', ' ', ' ', 'c', 'd'] }

/-- A document whose text extends past the last token's end: text "ab "
with the single token "ab" at offsets [0,2) — spaCy attaches a trailing
space to the last token's whitespace, so len(doc.text) = 3 while the
indexed range walked by _chr2tok ends at offset 2. -/
def wsDoc : SpacyDoc :=
  { tokens := [⟨0, ['a', 'b']⟩],
    text := ['a', 'b', ' '] }

/-- An engine rejecting every pattern (an unparseable pattern). -/
def badEngine : RegexEngine := fun _ _ _ => Except.error ()

/-- An engine reporting the two matches (0,2) and (4,6) on any input. -/
def twoMatchEngine : RegexEngine := fun _ _ _ => Except.ok [(0, 2), (4, 6)]

/-- An engine reporting the single match (0,2) on any input. -/
def oneMatchEngine : RegexEngine := fun _ _ _ => Except.ok [(0, 2)]

theorem exDoc_wf : Wf exDoc := by
  refine ⟨by decide, by decide, ?_⟩
  simp only [exDoc]
  decide

/-! ### Characterization of the built offset dictionary -/

theorem wf_strict {doc : SpacyDoc} (hw : Wf doc) :
    doc.tokens.Pairwise (fun a b => a.idx < b.idx) := by
  refine hw.sorted.imp_of_mem (fun {a b} ha _ h => ?_)
  have hne := hw.tok_nonempty a ha
  have hpos : 0 < a.text.length := List.length_pos.mpr hne
  unfold Token.endIdx at h
  omega

theorem countP_at_start {toks : List Token}
    (hs : toks.Pairwise (fun a b => a.idx < b.idx))
    {j : Nat} (hj : j < toks.length) {o : Int} (ho : ((toks[j]).idx : Int) = o) :
    toks.countP (fun t => (t.idx : Int) ≤ o) = j + 1 := by
  induction toks generalizing j with
  | nil => simp at hj
  | cons t rest ih =>
    rw [List.pairwise_cons] at hs
    cases j with
    | zero =>
      simp only [List.getElem_cons_zero] at ho
      rw [List.countP_cons]
      have h0 : rest.countP (fun t => decide ((t.idx : Int) ≤ o)) = 0 := by
        rw [List.countP_eq_zero]
        intro a ha
        have := hs.1 a ha
        simp only [decide_eq_true_eq]
        omega
      rw [h0]
      simp only [decide_eq_true_eq]
      rw [if_pos (by omega)]
    | succ j =>
      simp only [List.getElem_cons_succ] at ho
      have hj' : j < rest.length := by simpa using hj
      have hrec := ih hs.2 hj' ho
      rw [List.countP_cons, hrec]
      have hmem : rest[j] ∈ rest := List.getElem_mem hj'
      have hlt := hs.1 _ hmem
      simp only [decide_eq_true_eq]
      rw [if_pos (by omega)]

theorem owner_mono {toks : List Token} {o o' : Int} (h : o ≤ o') :
    owner toks o ≤ owner toks o' := by
  unfold owner
  have hle : toks.countP (fun t => decide ((t.idx : Int) ≤ o))
      ≤ toks.countP (fun t => decide ((t.idx : Int) ≤ o')) := by
    refine List.countP_mono_left (fun x _ hx => ?_)
    simp only [decide_eq_true_eq] at hx ⊢
    omega
  omega

theorem owner_gap {toks : List Token} {o : Int} (h : ¬ isStart toks o) :
    owner toks (o - 1) = owner toks o := by
  unfold owner
  have h1 : toks.countP (fun t => decide ((t.idx : Int) ≤ o - 1))
      ≤ toks.countP (fun t => decide ((t.idx : Int) ≤ o)) := by
    refine List.countP_mono_left (fun x _ hx => ?_)
    simp only [decide_eq_true_eq] at hx ⊢
    omega
  have h2 : toks.countP (fun t => decide ((t.idx : Int) ≤ o))
      ≤ toks.countP (fun t => decide ((t.idx : Int) ≤ o - 1)) := by
    refine List.countP_mono_left (fun x hx hle => ?_)
    simp only [decide_eq_true_eq] at hle ⊢
    have : (x.idx : Int) ≠ o := fun he => h ⟨x, hx, he⟩
    omega
  omega

theorem seedFrom_not_start (toks : List Token) :
    ∀ (d : Int → Option Nat) (i : Nat) (o : Int), ¬ isStart toks o →
      seedFrom d i toks o = d o := by
  induction toks with
  | nil => intro d i o _; rfl
  | cons t rest ih =>
    intro d i o h
    have h1 : ¬ isStart rest o := by
      rintro ⟨u, hu, he⟩
      exact h ⟨u, List.mem_cons_of_mem _ hu, he⟩
    have h2 : o ≠ (t.idx : Int) := by
      intro he
      exact h ⟨t, List.mem_cons_self _ _, he.symm⟩
    show seedFrom (dictInsert d (t.idx : Int) i) (i + 1) rest o = d o
    rw [ih _ _ _ h1]
    unfold dictInsert
    rw [if_neg h2]

theorem seedFrom_at_start {toks : List Token}
    (hs : toks.Pairwise (fun a b => a.idx < b.idx)) :
    ∀ (d : Int → Option Nat) (i : Nat) (j : Nat) (hj : j < toks.length),
      seedFrom d i toks ((toks[j]).idx : Int) = some (i + j) := by
  induction toks with
  | nil => intro _ _ j hj; simp at hj
  | cons t rest ih =>
    rw [List.pairwise_cons] at hs
    intro d i j hj
    cases j with
    | zero =>
      simp only [List.getElem_cons_zero]
      show seedFrom (dictInsert d (t.idx : Int) i) (i + 1) rest ((t.idx : Int)) = some (i + 0)
      have hnostart : ¬ isStart rest ((t.idx : Int)) := by
        rintro ⟨u, hu, he⟩
        have := hs.1 u hu
        omega
      rw [seedFrom_not_start rest _ _ _ hnostart]
      unfold dictInsert
      rw [if_pos rfl]
      rfl
    | succ j =>
      simp only [List.getElem_cons_succ]
      have hj' : j < rest.length := by simpa using hj
      have := ih hs.2 (dictInsert d (t.idx : Int) i) (i + 1) j hj'
      rw [show seedFrom d i (t :: rest) = seedFrom (dictInsert d (t.idx : Int) i) (i + 1) rest from rfl]
      rw [this]
      congr 1
      omega

theorem chr2tokLoop_append (l1 l2 : List Int) :
    ∀ d i, chr2tokLoop (l1 ++ l2) d i =
      chr2tokLoop l2 (chr2tokLoop l1 d i).1 (chr2tokLoop l1 d i).2 := by
  induction l1 with
  | nil => intro d i; rfl
  | cons o l1 ih =>
    intro d i
    show chr2tokLoop (o :: (l1 ++ l2)) d i = _
    cases h : d o with
    | some j =>
      rw [chr2tokLoop, h]
      rw [show chr2tokLoop (o :: l1) d i = chr2tokLoop l1 d j by rw [chr2tokLoop, h]]
      exact ih d j
    | none =>
      rw [chr2tokLoop, h]
      rw [show chr2tokLoop (o :: l1) d i = chr2tokLoop l1 (dictInsert d o i) i by
        rw [chr2tokLoop, h]]
      exact ih (dictInsert d o i) i

theorem dictInsert_apply (d : Int → Option Nat) (k : Int) (v : Nat) (x : Int) :
    dictInsert d k v x = if x = k then some v else d x := rfl

theorem loop_spec {doc : SpacyDoc} (hw : Wf doc) (k : Nat) :
    ((chr2tokLoop (intRange k) (seedDict doc.tokens) 0).2
        = owner doc.tokens ((k : Int) - 1)) ∧
    (∀ o : Int,
      ((isStart doc.tokens o ∨ (0 ≤ o ∧ o < (k : Int))) →
        (chr2tokLoop (intRange k) (seedDict doc.tokens) 0).1 o
          = some (owner doc.tokens o)) ∧
      (¬ isStart doc.tokens o → ¬(0 ≤ o ∧ o < (k : Int)) →
        (chr2tokLoop (intRange k) (seedDict doc.tokens) 0).1 o = none)) := by
  have hs := wf_strict hw
  induction k with
  | zero =>
    constructor
    · show (0 : Nat) = owner doc.tokens (((0 : Nat) : Int) - 1)
      unfold owner
      have h0 : doc.tokens.countP
          (fun t => decide ((t.idx : Int) ≤ ((0 : Nat) : Int) - 1)) = 0 := by
        rw [List.countP_eq_zero]
        intro a _
        simp only [decide_eq_true_eq]
        omega
      rw [h0]
    · intro o
      constructor
      · rintro (⟨t, ht, he⟩ | ⟨h1, h2⟩)
        · obtain ⟨j, hj, hget⟩ := List.getElem_of_mem ht
          show seedDict doc.tokens o = some (owner doc.tokens o)
          have hidx : ((doc.tokens[j]).idx : Int) = o := by rw [hget]; exact he
          have hseed := seedFrom_at_start hs (fun _ => none) 0 j hj
          rw [hidx] at hseed
          rw [show seedDict doc.tokens = seedFrom (fun _ => none) 0 doc.tokens from rfl,
            hseed]
          have hcnt := countP_at_start hs hj hidx
          unfold owner
          rw [hcnt]
          congr 1
          omega
        · push_cast at h2
          omega
      · intro hno _
        show seedDict doc.tokens o = none
        exact seedFrom_not_start doc.tokens _ _ _ hno
  | succ k ih =>
    have hsplit : intRange (k + 1) = intRange k ++ [(k : Int)] := by
      unfold intRange
      rw [List.range_succ, List.map_append]
      rfl
    rw [hsplit, chr2tokLoop_append]
    obtain ⟨ihI, ihD⟩ := ih
    by_cases hstart : isStart doc.tokens ((k : Int))
    · have hDk : (chr2tokLoop (intRange k) (seedDict doc.tokens) 0).1 (k : Int)
          = some (owner doc.tokens (k : Int)) :=
        (ihD (k : Int)).1 (Or.inl hstart)
      have hfst : (chr2tokLoop [(k : Int)]
            (chr2tokLoop (intRange k) (seedDict doc.tokens) 0).1
            (chr2tokLoop (intRange k) (seedDict doc.tokens) 0).2).1
          = (chr2tokLoop (intRange k) (seedDict doc.tokens) 0).1 := by
        rw [chr2tokLoop, hDk]
        rfl
      have hsnd : (chr2tokLoop [(k : Int)]
            (chr2tokLoop (intRange k) (seedDict doc.tokens) 0).1
            (chr2tokLoop (intRange k) (seedDict doc.tokens) 0).2).2
          = owner doc.tokens (k : Int) := by
        rw [chr2tokLoop, hDk]
        rfl
      refine ⟨?_, ?_⟩
      · rw [hsnd]
        congr 1
        push_cast
        ring
      · intro o
        rw [hfst]
        constructor
        · rintro (h | ⟨h1, h2⟩)
          · exact (ihD o).1 (Or.inl h)
          · by_cases ho : o = (k : Int)
            · rw [ho]
              exact hDk
            · push_cast at h2
              exact (ihD o).1 (Or.inr ⟨h1, by omega⟩)
        · intro hno hr
          refine (ihD o).2 hno ?_
          rintro ⟨h1, h2⟩
          refine hr ⟨h1, ?_⟩
          push_cast
          omega
    · have hDk : (chr2tokLoop (intRange k) (seedDict doc.tokens) 0).1 (k : Int)
          = none :=
        (ihD (k : Int)).2 hstart (by omega)
      have hIk : (chr2tokLoop (intRange k) (seedDict doc.tokens) 0).2
          = owner doc.tokens (k : Int) := by
        rw [ihI]
        exact owner_gap hstart
      have hfst : (chr2tokLoop [(k : Int)]
            (chr2tokLoop (intRange k) (seedDict doc.tokens) 0).1
            (chr2tokLoop (intRange k) (seedDict doc.tokens) 0).2).1
          = dictInsert (chr2tokLoop (intRange k) (seedDict doc.tokens) 0).1
              (k : Int) (chr2tokLoop (intRange k) (seedDict doc.tokens) 0).2 := by
        rw [chr2tokLoop, hDk]
        rfl
      have hsnd : (chr2tokLoop [(k : Int)]
            (chr2tokLoop (intRange k) (seedDict doc.tokens) 0).1
            (chr2tokLoop (intRange k) (seedDict doc.tokens) 0).2).2
          = (chr2tokLoop (intRange k) (seedDict doc.tokens) 0).2 := by
        rw [chr2tokLoop, hDk]
        rfl
      refine ⟨?_, ?_⟩
      · rw [hsnd, hIk]
        congr 1
        push_cast
        ring
      · intro o
        rw [hfst, dictInsert_apply]
        constructor
        · rintro (h | ⟨h1, h2⟩)
          · have ho : o ≠ (k : Int) := by
              intro he
              exact hstart (he ▸ h)
            rw [if_neg ho]
            exact (ihD o).1 (Or.inl h)
          · by_cases ho : o = (k : Int)
            · rw [if_pos ho, hIk, ho]
            · rw [if_neg ho]
              push_cast at h2
              exact (ihD o).1 (Or.inr ⟨h1, by omega⟩)
        · intro hno hr
          have ho : o ≠ (k : Int) := by
            intro he
            refine hr ⟨by omega, ?_⟩
            push_cast
            omega
          rw [if_neg ho]
          refine (ihD o).2 hno ?_
          rintro ⟨h1, h2⟩
          refine hr ⟨h1, ?_⟩
          push_cast
          omega

theorem idx_le_lastEnd {doc : SpacyDoc} (hw : Wf doc) :
    ∀ t ∈ doc.tokens, t.idx ≤ lastEnd doc := by
  intro t ht
  obtain ⟨j, hj, hget⟩ := List.getElem_of_mem ht
  have hne := hw.nonempty
  have hpos : 0 < doc.tokens.length := List.length_pos.mpr hne
  have hlt : doc.tokens.length - 1 < doc.tokens.length := by omega
  have hLE : lastEnd doc = (doc.tokens[doc.tokens.length - 1]).endIdx := by
    unfold lastEnd
    rw [List.getLast?_eq_getLast _ hne, List.getLast_eq_getElem]
  rw [hLE]
  by_cases hj1 : j = doc.tokens.length - 1
  · subst hj1
    rw [hget]
    unfold Token.endIdx
    omega
  · have hjlt : j < doc.tokens.length - 1 := by omega
    have hrel := List.pairwise_iff_getElem.mp hw.sorted j (doc.tokens.length - 1)
      hj hlt hjlt
    rw [hget] at hrel
    unfold Token.endIdx at hrel ⊢
    omega

theorem chr2tok_spec {doc : SpacyDoc} (hw : Wf doc) :
    ∃ m, _chr2tok doc = Except.ok m ∧
      ∀ o : Int, m o = if 0 ≤ o ∧ o ≤ (lastEnd doc : Int)
        then some (owner doc.tokens o) else none := by
  have hne := hw.nonempty
  have hlast : doc.tokens.getLast? = some (doc.tokens.getLast hne) :=
    List.getLast?_eq_getLast _ hne
  have hLE : lastEnd doc = (doc.tokens.getLast hne).endIdx := by
    unfold lastEnd
    rw [hlast]
  refine ⟨(chr2tokLoop (intRange (lastEnd doc + 1)) (seedDict doc.tokens) 0).1,
    ?_, ?_⟩
  · have h2 : (doc.tokens.getLast hne).idx + (doc.tokens.getLast hne).text.length + 1
        = lastEnd doc + 1 := by
      rw [hLE]
      rfl
    unfold _chr2tok
    rw [hlast]
    show Except.ok (chr2tokLoop (intRange ((doc.tokens.getLast hne).idx
          + (doc.tokens.getLast hne).text.length + 1)) (seedDict doc.tokens) 0).1
        = Except.ok (chr2tokLoop (intRange (lastEnd doc + 1)) (seedDict doc.tokens) 0).1
    rw [h2]
  · intro o
    have hloop := (loop_spec hw (lastEnd doc + 1)).2 o
    by_cases hin : 0 ≤ o ∧ o ≤ (lastEnd doc : Int)
    · rw [if_pos hin]
      refine hloop.1 (Or.inr ⟨hin.1, ?_⟩)
      push_cast
      omega
    · rw [if_neg hin]
      refine hloop.2 ?_ ?_
      · rintro ⟨t, ht, he⟩
        have h1 := idx_le_lastEnd hw t ht
        refine hin ⟨by omega, ?_⟩
        have h3 : ((t.idx : Nat) : Int) ≤ ((lastEnd doc : Nat) : Int) := by
          exact_mod_cast h1
        omega
      · rintro ⟨h1, h2⟩
        push_cast at h2
        exact hin ⟨h1, by omega⟩

theorem get_ti_spec {doc : SpacyDoc} (hw : Wf doc) (o : Int) :
    get_ti_from_idx doc o =
      if 0 ≤ o ∧ o ≤ (lastEnd doc : Int)
      then Except.ok (owner doc.tokens o) else Except.error PyErr.keyError := by
  obtain ⟨m, hm, hspec⟩ := chr2tok_spec hw
  by_cases hin : 0 ≤ o ∧ o ≤ (lastEnd doc : Int)
  · have hmo : m o = some (owner doc.tokens o) := by rw [hspec o, if_pos hin]
    simp only [get_ti_from_idx, hm, hmo, if_pos hin]
  · have hmo : m o = none := by rw [hspec o, if_neg hin]
    simp only [get_ti_from_idx, hm, hmo, if_neg hin]

theorem resolve_spec {doc : SpacyDoc} (hw : Wf doc) {s e : Int}
    (h0 : 0 ≤ s) (hse : s ≤ e) (he : e ≤ (lastEnd doc : Int)) :
    get_span_from_idxs doc s e = Except.ok (spanOf doc.tokens s e) := by
  have hsin : 0 ≤ s ∧ s ≤ (lastEnd doc : Int) := ⟨h0, by omega⟩
  have hts : get_ti_from_idx doc s = Except.ok (owner doc.tokens s) := by
    rw [get_ti_spec hw s, if_pos hsin]
  by_cases heq : s = e
  · simp only [get_span_from_idxs, hts, spanOf, if_pos heq]
  · have hein : 0 ≤ e - 1 ∧ e - 1 ≤ (lastEnd doc : Int) := by omega
    have hte : get_ti_from_idx doc (e - 1) = Except.ok (owner doc.tokens (e - 1)) := by
      rw [get_ti_spec hw (e - 1), if_pos hein]
    simp only [get_span_from_idxs, hts, hte, spanOf, if_neg heq]

theorem spanOf_fst (toks : List Token) (s e : Int) :
    (spanOf toks s e).1 = owner toks s := by
  unfold spanOf
  by_cases h : s = e
  · rw [if_pos h]
  · rw [if_neg h]

theorem resolveSeq_map {doc : SpacyDoc} (hw : Wf doc) :
    ∀ ms : List (Nat × Nat),
      (∀ m ∈ ms, m.1 ≤ m.2 ∧ m.2 ≤ lastEnd doc) →
      resolveSeq doc ms
        = Except.ok (ms.map (fun m => spanOf doc.tokens (m.1 : Int) (m.2 : Int))) := by
  intro ms
  induction ms with
  | nil => intro _; rfl
  | cons m rest ih =>
    intro hv
    have hm := hv m (List.mem_cons_self _ _)
    have h1 : get_span_from_idxs doc (m.1 : Int) (m.2 : Int)
        = Except.ok (spanOf doc.tokens (m.1 : Int) (m.2 : Int)) := by
      refine resolve_spec hw (Int.natCast_nonneg _) ?_ ?_
      · exact_mod_cast hm.1
      · exact_mod_cast hm.2
    have h2 := ih (fun x hx => hv x (List.mem_cons_of_mem _ hx))
    simp only [resolveSeq, h1, h2, List.map_cons]

theorem resolveSeq_get? {doc : SpacyDoc} :
    ∀ (ms l : List (Nat × Nat)),
      resolveSeq doc ms = Except.ok l →
      ∀ (i : Nat) (m : Nat × Nat), ms[i]? = some m →
        ∃ sp, l[i]? = some sp ∧
          get_span_from_idxs doc (m.1 : Int) (m.2 : Int) = Except.ok sp := by
  intro ms
  induction ms with
  | nil =>
    intro l _ i m h
    simp at h
  | cons m0 rest ih =>
    intro l hl i m hi
    cases hsp : get_span_from_idxs doc (m0.1 : Int) (m0.2 : Int) with
    | error e =>
      simp only [resolveSeq, hsp] at hl
      exact Except.noConfusion hl
    | ok sp0 =>
      cases hrest : resolveSeq doc rest with
      | error e =>
        simp only [resolveSeq, hsp, hrest] at hl
        exact Except.noConfusion hl
      | ok sps =>
        simp only [resolveSeq, hsp, hrest, Except.ok.injEq] at hl
        subst hl
        cases i with
        | zero =>
          simp only [List.getElem?_cons_zero, Option.some.injEq] at hi
          subst hi
          exact ⟨sp0, by simp, hsp⟩
        | succ i =>
          simp only [List.getElem?_cons_succ] at hi ⊢
          exact ih sps hrest i m hi

/-! ### Claim theorems -/

/-- C1: Resolve (get_span_from_idxs) satisfies the SpanResolver contract:
for every well-formed document and valid pair with char_start = char_end it
returns the empty SpanRef [Lookup(char_start), Lookup(char_start)) — its
success depends only on the lookup at char_start, never on char_end - 1 —
and for char_start < char_end it returns
[Lookup(char_start), Lookup(char_end - 1) + 1). -/
theorem claim_resolve_contract (doc : SpacyDoc) (hw : Wf doc) (s e : Int)
    (h0 : 0 ≤ s) (hse : s ≤ e) (he : e ≤ (lastEnd doc : Int)) :
    (s = e → ∃ ls, get_ti_from_idx doc s = Except.ok ls ∧
      get_span_from_idxs doc s e = Except.ok (ls, ls)) ∧
    (s < e → ∃ ls le, get_ti_from_idx doc s = Except.ok ls ∧
      get_ti_from_idx doc (e - 1) = Except.ok le ∧
      get_span_from_idxs doc s e = Except.ok (ls, le + 1)) := by
  have hsin : 0 ≤ s ∧ s ≤ (lastEnd doc : Int) := ⟨h0, by omega⟩
  have hts : get_ti_from_idx doc s = Except.ok (owner doc.tokens s) := by
    rw [get_ti_spec hw s, if_pos hsin]
  constructor
  · intro heq
    refine ⟨owner doc.tokens s, hts, ?_⟩
    rw [resolve_spec hw h0 hse he]
    unfold spanOf
    rw [if_pos heq]
  · intro hlt
    have hein : 0 ≤ e - 1 ∧ e - 1 ≤ (lastEnd doc : Int) := by omega
    have hte : get_ti_from_idx doc (e - 1)
        = Except.ok (owner doc.tokens (e - 1)) := by
      rw [get_ti_spec hw (e - 1), if_pos hein]
    refine ⟨owner doc.tokens s, owner doc.tokens (e - 1), hts, hte, ?_⟩
    rw [resolve_spec hw h0 hse he]
    unfold spanOf
    rw [if_neg (by omega)]

/-- C1 witness: on the concrete document, the zero-width pair (0, 0)
resolves to the empty span anchored at token 0, even though the lookup at
offset 0 - 1 = -1 itself fails — the zero-width branch never consults it. -/
theorem claim_resolve_contract_witness :
    (∃ ls, get_ti_from_idx exDoc 0 = Except.ok ls ∧
      get_span_from_idxs exDoc 0 0 = Except.ok (ls, ls)) ∧
    get_ti_from_idx exDoc (0 - 1) = Except.error PyErr.keyError :=
  ⟨(claim_resolve_contract exDoc exDoc_wf 0 0 (by decide) (by decide)
      (by decide)).1 rfl,
   by rfl⟩

/-- C2 (code bug witness): on the document with text "ab  cd" and tokens
"ab"(0,2), "cd"(4,6), resolving the valid pair (1, 3) yields the SpanRef
[0, 1), whose covered text "ab" does not contain the substring
doc.text[1:3] = "b " — the containment property stated in the code's own
docstring fails when char_end - 1 falls in an inter-token gap. -/
theorem claim_containment_failing_input :
    get_span_from_idxs exDoc 1 3 = Except.ok (0, 1) ∧
    textSlice exDoc.text 1 3 = ['b', ' '] ∧
    spanText exDoc (0, 1) = ['a', 'b'] ∧
    ¬ List.IsInfix (textSlice exDoc.text 1 3) (spanText exDoc (0, 1)) := by
  refine ⟨rfl, rfl, rfl, ?_⟩
  decide

/-- C3: for a non-empty span and matches the engine reports on the span's
sub-text with local offsets, span_finditer yields, position by position,
exactly Resolve(document, local_start + first_token.idx,
local_end + first_token.idx) — SpanRefs in absolute document token
coordinates. -/
theorem claim_span_finditer_delegates (E : RegexEngine) (doc : SpacyDoc)
    (sp : Nat × Nat) (pattern : String) (flags : Int) (t0 : Token)
    (h1 : sp.1 < sp.2) (ht0 : doc.tokens.get? sp.1 = some t0)
    (ms l : List (Nat × Nat))
    (hm : E pattern (spanText doc sp) flags = Except.ok ms)
    (hl : span_finditer E doc sp pattern flags = Except.ok l) :
    ∀ (i : Nat) (m : Nat × Nat), ms[i]? = some m →
      ∃ sp', l[i]? = some sp' ∧
        get_span_from_idxs doc ((m.1 + t0.idx : Nat) : Int)
          ((m.2 + t0.idx : Nat) : Int) = Except.ok sp' := by
  intro i m hi
  have hresolve : resolveSeq doc (ms.map (fun m => (m.1 + t0.idx, m.2 + t0.idx)))
      = Except.ok l := by
    simpa only [span_finditer, if_pos h1, ht0, hm] using hl
  have hmap : (ms.map (fun m => (m.1 + t0.idx, m.2 + t0.idx)))[i]?
      = some (m.1 + t0.idx, m.2 + t0.idx) := by
    rw [List.getElem?_map, hi]
    rfl
  obtain ⟨sp', hsp', hres⟩ := resolveSeq_get? _ _ hresolve i _ hmap
  exact ⟨sp', hsp', hres⟩

/-- C3 witness: on the concrete document with the whole-document span [0, 2)
and an engine reporting the single local match (0, 2), the first yielded
SpanRef is the resolution of the shifted interval (0 + 0, 2 + 0). -/
theorem claim_span_finditer_delegates_witness :
    ∃ sp', [((0 : Nat), (1 : Nat))][0]? = some sp' ∧
      get_span_from_idxs exDoc ((0 + 0 : Nat) : Int) ((2 + 0 : Nat) : Int)
        = Except.ok sp' :=
  claim_span_finditer_delegates oneMatchEngine exDoc (0, 2) "x" 0
    ⟨0, ['a', 'b']⟩ (by decide) rfl [(0, 2)] [(0, 1)] rfl rfl 0 (0, 2) rfl

/-- C4 counterexample: on the document with text "ab " (a trailing space
attached to the last token, as in the module's own docstring example text),
the offset 3 = doc_char_length is neither negative nor beyond the document
range [0, doc_char_length], yet the lookup fails with KeyError — the map is
not total on the whole document range, only on the walked range [0, 2]. -/
theorem claim_lookup_total_counterexample :
    wsDoc.text.length = 3 ∧
    get_ti_from_idx wsDoc 3 = Except.error PyErr.keyError ∧
    get_ti_from_idx wsDoc 2 = Except.ok 0 :=
  ⟨rfl, rfl, rfl⟩

/-- C4 (amended): on a well-formed document (at least one token) the offset
lookup is total on the indexed range [0, lastEnd] — lastEnd being the end of
the last token's character span, the bound the build walks, which equals the
document character length only when the text ends at the last token — and it
fails (KeyError, the OutOfRange failure) exactly when the offset is negative
or exceeds that indexed range; in particular, on a document with trailing
whitespace the offsets in (lastEnd, doc_char_length] fail although they lie
within the document range. -/
theorem claim_lookup_total (doc : SpacyDoc) (hw : Wf doc) (o : Int) :
    ((0 ≤ o ∧ o ≤ (lastEnd doc : Int)) →
      ∃ i, get_ti_from_idx doc o = Except.ok i) ∧
    (get_ti_from_idx doc o = Except.error PyErr.keyError ↔
      (o < 0 ∨ (lastEnd doc : Int) < o)) := by
  constructor
  · intro hin
    exact ⟨owner doc.tokens o, by rw [get_ti_spec hw o, if_pos hin]⟩
  · by_cases hin : 0 ≤ o ∧ o ≤ (lastEnd doc : Int)
    · rw [get_ti_spec hw o, if_pos hin]
      constructor
      · intro h
        exact Except.noConfusion h
      · intro h
        omega
    · rw [get_ti_spec hw o, if_neg hin]
      constructor
      · intro _
        omega
      · intro _
        rfl

/-- C4 witness: on the concrete document, offset 3 (inside the indexed
range) looks up to some token index, and the error characterization holds
there. -/
theorem claim_lookup_total_witness :
    (∃ i, get_ti_from_idx exDoc 3 = Except.ok i) ∧
    (get_ti_from_idx exDoc 3 = Except.error PyErr.keyError ↔
      ((3 : Int) < 0 ∨ (lastEnd exDoc : Int) < 3)) :=
  ⟨(claim_lookup_total exDoc exDoc_wf 3).1 (by decide),
   (claim_lookup_total exDoc exDoc_wf 3).2⟩

/-- C5 counterexample: building the index on the document with zero tokens
does not succeed with an empty index — accessing the last token raises an
IndexError, so the build itself fails. -/
theorem claim_empty_build_counterexample :
    _chr2tok ⟨[], []⟩ = Except.error PyErr.indexError := rfl

/-- C5 (amended): building the offset index on a document with zero tokens
fails with an index error (from reading the last token), and consequently
every lookup on such a document fails with that same error rather than
returning an arbitrary token index. -/
theorem claim_empty_build_fails (doc : SpacyDoc) (h : doc.tokens = []) :
    _chr2tok doc = Except.error PyErr.indexError ∧
    ∀ o : Int, get_ti_from_idx doc o = Except.error PyErr.indexError := by
  have hb : _chr2tok doc = Except.error PyErr.indexError := by
    unfold _chr2tok
    rw [h]
    rfl
  refine ⟨hb, fun o => ?_⟩
  simp only [get_ti_from_idx, hb]

/-- C5 witness: the empty document. -/
theorem claim_empty_build_fails_witness :
    _chr2tok ⟨[], []⟩ = Except.error PyErr.indexError ∧
    get_ti_from_idx ⟨[], []⟩ 0 = Except.error PyErr.indexError :=
  ⟨(claim_empty_build_fails ⟨[], []⟩ rfl).1,
   (claim_empty_build_fails ⟨[], []⟩ rfl).2 0⟩

/-- C6: for a pattern the engine rejects, each of the four search
operations fails with the pattern error and produces no SpanRef at all (the
failure is the whole result; no partial list escapes). -/
theorem claim_pattern_error_all_ops (E : RegexEngine) (pattern : String)
    (hbad : ∀ txt flags, E pattern txt flags = Except.error ())
    (doc : SpacyDoc) (flags : Int) (sp : Nat × Nat)
    (h1 : sp.1 < sp.2) (h2 : sp.2 ≤ doc.tokens.length) :
    doc_finditer E doc pattern flags = Except.error PyErr.patternError ∧
    doc_findall E doc pattern flags = Except.error PyErr.patternError ∧
    span_finditer E doc sp pattern flags = Except.error PyErr.patternError ∧
    span_findall E doc sp pattern flags = Except.error PyErr.patternError := by
  have hd : doc_finditer E doc pattern flags = Except.error PyErr.patternError := by
    simp only [doc_finditer, hbad]
  have ht0 : ∃ t0, doc.tokens.get? sp.1 = some t0 := by
    rw [List.get?_eq_get (by omega)]
    exact ⟨_, rfl⟩
  obtain ⟨t0, ht0⟩ := ht0
  have hsf : span_finditer E doc sp pattern flags
      = Except.error PyErr.patternError := by
    simp only [span_finditer, if_pos h1, ht0, hbad]
  exact ⟨hd, hd, hsf, hsf⟩

/-- C6 witness: a rejecting engine on the concrete document and its
whole-document span. -/
theorem claim_pattern_error_all_ops_witness :
    doc_finditer badEngine exDoc "(" 0 = Except.error PyErr.patternError ∧
    doc_findall badEngine exDoc "(" 0 = Except.error PyErr.patternError ∧
    span_finditer badEngine exDoc (0, 2) "(" 0 = Except.error PyErr.patternError ∧
    span_findall badEngine exDoc (0, 2) "(" 0 = Except.error PyErr.patternError :=
  claim_pattern_error_all_ops badEngine "(" (fun _ _ => rfl) exDoc 0 (0, 2)
    (by decide) (by decide)

/-- C7: when the engine reports its non-overlapping matches in
left-to-right (non-decreasing start) order within the indexed range,
doc_findall succeeds and returns the SpanRefs in non-decreasing
token_start_index order. -/
theorem claim_findall_order (E : RegexEngine) (doc : SpacyDoc) (hw : Wf doc)
    (pattern : String) (flags : Int) (ms : List (Nat × Nat))
    (hm : E pattern doc.text flags = Except.ok ms)
    (hv : ∀ m ∈ ms, m.1 ≤ m.2 ∧ m.2 ≤ lastEnd doc)
    (hord : List.Chain' (fun a b => a.1 ≤ b.1) ms) :
    ∃ l, doc_findall E doc pattern flags = Except.ok l ∧
      List.Chain' (fun a b => a.1 ≤ b.1) l := by
  refine ⟨ms.map (fun m => spanOf doc.tokens (m.1 : Int) (m.2 : Int)), ?_, ?_⟩
  · simp only [doc_findall, doc_finditer, hm]
    exact resolveSeq_map hw ms hv
  · rw [List.chain'_map]
    refine hord.imp ?_
    intro a b hab
    rw [spanOf_fst, spanOf_fst]
    exact owner_mono (by exact_mod_cast hab)

/-- C7 witness: an engine reporting the two ordered matches (0,2) and (4,6)
on the concrete document. -/
theorem claim_findall_order_witness :
    ∃ l, doc_findall twoMatchEngine exDoc "x" 0 = Except.ok l ∧
      List.Chain' (fun a b => a.1 ≤ b.1) l :=
  claim_findall_order twoMatchEngine exDoc exDoc_wf "x" 0 [(0, 2), (4, 6)]
    rfl (by decide) (by simp)

/-- C8: on the document with text "ab  cd" tokenized as "ab"(0,2),
"cd"(4,6), resolving the character range (1, 5) yields the SpanRef [0, 2)
covering both tokens, and resolving the zero-width range (2, 2) in the gap
yields the empty SpanRef [0, 0) anchored at token 0. -/
theorem claim_concrete_scenario :
    get_span_from_idxs exDoc 1 5 = Except.ok (0, 2) ∧
    get_span_from_idxs exDoc 2 2 = Except.ok (0, 0) :=
  ⟨rfl, rfl⟩

/-- C9: on a well-formed document, every valid pair with
char_start < char_end within the indexed range resolves to a non-empty
SpanRef: token_end_index exceeds token_start_index, because the
offset-to-token-index map is non-decreasing. -/
theorem claim_resolve_nonempty (doc : SpacyDoc) (hw : Wf doc) (s e : Int)
    (h0 : 0 ≤ s) (hlt : s < e) (he : e ≤ (lastEnd doc : Int)) :
    ∃ a b, get_span_from_idxs doc s e = Except.ok (a, b) ∧ a < b := by
  rw [resolve_spec hw h0 (by omega) he]
  refine ⟨owner doc.tokens s, owner doc.tokens (e - 1) + 1, ?_, ?_⟩
  · unfold spanOf
    rw [if_neg (by omega)]
  · have hmono := @owner_mono doc.tokens s (e - 1) (show s ≤ e - 1 by omega)
    omega

/-- C9 witness: the pair (1, 5) on the concrete document. -/
theorem claim_resolve_nonempty_witness :
    ∃ a b, get_span_from_idxs exDoc 1 5 = Except.ok (a, b) ∧ a < b :=
  claim_resolve_nonempty exDoc exDoc_wf 1 5 (by decide) (by decide) (by decide)

/-- C10: on every empty SpanRef (token_start_index = token_end_index),
span_finditer fails immediately with an index error when reading the span's
first token, for every engine, pattern and flags — even a valid pattern. -/
theorem claim_empty_span_index_error (E : RegexEngine) (doc : SpacyDoc)
    (sp : Nat × Nat) (pattern : String) (flags : Int) (h : sp.1 = sp.2) :
    span_finditer E doc sp pattern flags = Except.error PyErr.indexError := by
  unfold span_finditer
  rw [if_neg (by omega)]

/-- C10 witness: the empty span [1, 1) on the concrete document with a
well-behaved engine. -/
theorem claim_empty_span_index_error_witness :
    span_finditer oneMatchEngine exDoc (1, 1) "a" 0
      = Except.error PyErr.indexError :=
  claim_empty_span_index_error oneMatchEngine exDoc (1, 1) "a" 0 rfl
